import Mathlib

/-!
Verification of the multi-agent orchestration engine (`Multi-Agent-WF.py`).

The Python source is shallowly embedded: pure helpers become Lean functions,
the in-place mutation of the Gradio session-state dictionary becomes explicit
state passing over `AppState`, and Python exceptions become `Except String`
results (a call that raises returns `.error msg` together with the state as it
stood at the raise site, which is what the in-place-mutating Python code leaves
behind when the exception is caught upstream).  The generative-text agents
(`Agent.run_sync`) and the tool-log extractor are external collaborators and
are passed in as an `Oracles` record of opaque functions.
-/

namespace HubDev

/-- Worker role, `Literal["static", "dynamic"]` in the Python schemas. -/
inductive Worker where
  | static
  | dynamic
deriving DecidableEq, Repr

/-- `PlanTask` (pydantic model): one planned unit of work. -/
structure PlanTask where
  id : String
  worker : Worker
  objective : String
  depends_on : List String
  can_run_parallel : Bool
  success_criteria : List String
deriving DecidableEq, Repr

/-- `ExecutionPlan` (pydantic model). -/
structure ExecutionPlan where
  tasks : List PlanTask
  final_output_style : String
deriving DecidableEq, Repr

/-- `VerificationIssue` (pydantic model); severity kept as a plain string. -/
structure VerificationIssue where
  task_id : String
  severity : String
  problem : String
  required_fix : String
deriving DecidableEq, Repr

/-- `RetryTask` (pydantic model). -/
structure RetryTask where
  task_id : String
  worker : Worker
  objective : String
deriving DecidableEq, Repr

/-- `VerificationVerdict` (pydantic model). -/
structure VerificationVerdict where
  approved : Bool
  issues : List VerificationIssue
  retry_tasks : List RetryTask
deriving DecidableEq, Repr

/-- The `task_packet` dict built by `run_worker_task` (the TaskOutputRecord). -/
structure TaskPacket where
  task_id : String
  worker : Worker
  objective : String
  status : String
  output_text : String
deriving DecidableEq, Repr

/-- The `state["shared_state"]` dict. -/
structure SharedState where
  artifacts : List String
  findings : List String
  task_outputs : List TaskPacket
  run_count : Nat
deriving DecidableEq, Repr

/-- A conversation entry of a role history (`ModelMessage`); its internal
structure is irrelevant to the orchestration engine, so it is kept abstract
as a string. -/
abbrev ModelMessage := String

/-- One chat message of the Gradio chat history (a `{"role", "content"}` dict). -/
structure ChatMsg where
  role : String
  content : String
deriving DecidableEq, Repr

/-- The Gradio session state dict: `role_histories`, `tool_log`,
`shared_state`.  The Python handlers `setdefault` these keys before use, so
the model keeps them total. -/
structure AppState where
  role_histories : List (String × List ModelMessage)
  tool_log : String
  shared_state : SharedState
deriving DecidableEq, Repr

/-- Python's `str.lower()`, on the character list. -/
def pyLower (s : String) : String := ⟨s.data.map Char.toLower⟩

/-- Substring test (Python's `k in sid` on strings), on the character lists. -/
def strHasSub (hay pat : String) : Bool :=
  (List.range (hay.data.length + 1)).any (fun i => pat.data.isPrefixOf (hay.data.drop i))

/-- The static keyword list of `partition_toolsets`. -/
def staticKeys : List String := ["ghidra", "string", "floss", "hashdb", "capa"]

/-- The dynamic keyword list of `partition_toolsets`. -/
def dynamicKeys : List String := ["vm", "procmon", "wireshark", "sandbox", "run", "exec"]

/-- `partition_toolsets`: heuristic split of the MCP server ids into the
static and dynamic capability partitions.  A server is modelled by its id
string.  Unknown ids default to the static partition. -/
def partition_toolsets (ids : List String) : List String × List String :=
  ids.foldl
    (fun acc s =>
      let sid := pyLower s
      if staticKeys.any (fun k => strHasSub sid k) then (acc.1 ++ [s], acc.2)
      else if dynamicKeys.any (fun k => strHasSub sid k) then (acc.1, acc.2 ++ [s])
      else (acc.1 ++ [s], acc.2))
    ([], [])

/-- First loop of `validate_plan`: walk the tasks carrying the `ids` set
(insertion-ordered here; only membership is used), raising on a duplicate id
or on a dynamic task when no dynamic toolsets are configured.  Returns the
collected ids. -/
def validateIds : List PlanTask → List String → Bool → Except String (List String)
  | [], ids, _ => .ok ids
  | t :: rest, ids, hasDyn =>
    if ids.contains t.id then .error ("Duplicate task id: " ++ t.id)
    else if t.worker = Worker.dynamic && !hasDyn then
      .error "Planner requested dynamic task but no dynamic toolsets are configured."
    else validateIds rest (ids ++ [t.id]) hasDyn

/-- Inner loop of the dependency check of `validate_plan` for one task. -/
def validateDepList (tid : String) (deps : List String) (ids : List String) :
    Except String Unit :=
  match deps with
  | [] => .ok ()
  | d :: rest =>
    if ids.contains d then validateDepList tid rest ids
    else .error ("Task " ++ tid ++ " depends on unknown task " ++ d)

/-- Second loop of `validate_plan`: every dependency id must be a known id. -/
def validateDeps : List PlanTask → List String → Except String Unit
  | [], _ => .ok ()
  | t :: rest, ids =>
    match validateDepList t.id t.depends_on ids with
    | .ok () => validateDeps rest ids
    | .error e => .error e

/-- `validate_plan(plan, has_dynamic_tools)`: raises (returns `.error`) on a
duplicate task id, on a dynamic task without dynamic toolsets, or on a
dependency id that names no task of the plan. -/
def validate_plan (plan : ExecutionPlan) (has_dynamic_tools : Bool) :
    Except String Unit :=
  match validateIds plan.tasks [] has_dynamic_tools with
  | .error e => .error e
  | .ok ids => validateDeps plan.tasks ids

/-- The dict comprehension `{t.id: t for t in tasks}`: a later task with the
same id overwrites the earlier one in place (Python dicts keep the original
insertion position on overwrite).  The values are kept in key-insertion
order, which is the iteration order of `remaining.values()`. -/
def dictOfTasks (tasks : List PlanTask) : List PlanTask :=
  tasks.foldl
    (fun acc t =>
      if acc.any (fun u => u.id == t.id)
      then acc.map (fun u => if u.id == t.id then t else u)
      else acc ++ [t])
    []

/-- The `while remaining:` loop of `topological_batches`.  `remaining` holds
the still-unscheduled tasks in dict order (unique ids whenever it comes from
`dictOfTasks`), `done` the ids scheduled in earlier iterations. -/
def topoLoop (remaining : List PlanTask) (done : List String)
    (batches : List (List PlanTask)) : Except String (List (List PlanTask)) :=
  if remaining.isEmpty then .ok batches
  else
    let ready := remaining.filter (fun t => t.depends_on.all (fun dep => done.contains dep))
    if h : ready.isEmpty then .error "Cycle detected in plan dependencies"
    else
      let parallel := ready.filter (fun t => t.can_run_parallel)
      let serial := ready.filter (fun t => !t.can_run_parallel)
      let newBatches := (if parallel.isEmpty then [] else [parallel]) ++ serial.map (fun t => [t])
      let rids := ready.map (fun t => t.id)
      topoLoop (remaining.filter (fun t => !rids.contains t.id)) (done ++ rids)
        (batches ++ newBatches)
termination_by remaining.length
decreasing_by
  rw [List.length_filter_lt_length_iff_exists]
  rcases List.isEmpty_eq_false_iff_exists_mem.mp (Bool.not_eq_true _ ▸ h) with ⟨t, ht⟩
  have htr := List.mem_filter.mp ht
  have hall := List.all_eq_true.mp htr.2
  simp only [Bool.not_eq_true, Bool.not_eq_false]
  simp
  exact ⟨t, htr.1, t, ⟨⟨htr.1, fun d hd => by simpa using hall d hd⟩, rfl⟩⟩

/-- `topological_batches(tasks)`: the small DAG scheduler. -/
def topological_batches (tasks : List PlanTask) : Except String (List (List PlanTask)) :=
  topoLoop (dictOfTasks tasks) [] []

/-- Python's `str.strip()`: drop leading and trailing whitespace. -/
def pyStrip (s : String) : String :=
  ⟨((s.data.dropWhile Char.isWhitespace).reverse.dropWhile Char.isWhitespace).reverse⟩

/-- `get_role_history(state, role_key)`. -/
def get_role_history (state : AppState) (role_key : String) : List ModelMessage :=
  match state.role_histories.lookup role_key with
  | some h => h
  | none => []

/-- Python dict assignment `d[k] = v`: an existing key keeps its position and
gets the new value, a new key is appended. -/
def pyDictSet (d : List (String × List ModelMessage)) (k : String)
    (v : List ModelMessage) : List (String × List ModelMessage) :=
  if d.any (fun p => p.1 == k) then d.map (fun p => if p.1 == k then (k, v) else p)
  else d ++ [(k, v)]

/-- `set_role_history(state, role_key, history)`. -/
def set_role_history (state : AppState) (role_key : String)
    (history : List ModelMessage) : AppState :=
  { state with role_histories := pyDictSet state.role_histories role_key history }

/-- `append_tool_log_delta(state, role_key, old_history, new_history)`.
`extract` stands for `extract_tool_log_from_messages` (best-effort debugging
output, opaque to the engine). -/
def append_tool_log_delta (extract : List ModelMessage → String) (state : AppState)
    (role_key : String) (old_history new_history : List ModelMessage) : AppState :=
  let delta := new_history.drop old_history.length
  let tool_blob := extract delta
  if tool_blob = "" then state
  else
    let prev := pyStrip state.tool_log
    let tagged := "/* " ++ role_key ++ " */\n" ++ tool_blob
    { state with tool_log := if prev = "" then tagged else pyStrip (prev ++ "\n\n" ++ tagged) }

/-- The structured content of the `planner_input` JSON. -/
structure PlannerInput where
  user_request : String
  available_workers : List String
  static_inventory : List String
  dynamic_inventory : List String
  artifacts : List String
  findings_count : Nat
  previous_runs : Nat
deriving DecidableEq, Repr

/-- The structured content of the `worker_input` JSON. -/
structure WorkerInput where
  task : PlanTask
  shared_state : SharedState
deriving DecidableEq, Repr

/-- The structured content of the `verifier_input` JSON. -/
structure VerifierInput where
  user_request : String
  plan : ExecutionPlan
  just_ran_task_ids : List String
  task_outputs : List TaskPacket
deriving DecidableEq, Repr

/-- The structured content of the `reporter_input` JSON. -/
structure ReporterInput where
  user_request : String
  task_outputs : List TaskPacket
  notes : String
deriving DecidableEq, Repr

/-- The external collaborators of the engine: the five generative-text agents
(`Agent.run_sync`, which may raise), the tool-log extractor, and the loaded
MCP toolset ids.  Each agent receives its (structured) input and the prior
role history and returns its output together with `result.all_messages()`. -/
structure Oracles where
  planner : PlannerInput → List ModelMessage → Except String (ExecutionPlan × List ModelMessage)
  static_worker : WorkerInput → List ModelMessage → Except String (String × List ModelMessage)
  dynamic_worker : WorkerInput → List ModelMessage → Except String (String × List ModelMessage)
  verifier : VerifierInput → List ModelMessage → Except String (VerificationVerdict × List ModelMessage)
  reporter : ReporterInput → List ModelMessage → Except String (String × List ModelMessage)
  tool_log_of : List ModelMessage → String
  static_ids : List String
  dynamic_ids : List String

/-- `bool(runtime.dynamic_toolsets)`. -/
def Oracles.has_dynamic_tools (o : Oracles) : Bool := !o.dynamic_ids.isEmpty

/-- The `planner_input` built by `run_planner`. -/
def planner_input (o : Oracles) (user_text : String) (shared : SharedState) : PlannerInput :=
  { user_request := user_text
    available_workers := ["static"] ++ (if o.has_dynamic_tools then ["dynamic"] else [])
    static_inventory := o.static_ids
    dynamic_inventory := o.dynamic_ids
    artifacts := shared.artifacts
    findings_count := shared.findings.length
    previous_runs := shared.run_count }

/-- `run_planner(runtime, user_text, state)`: call the planner agent, save
its history and tool-log delta, then validate the plan.  A raise from the
agent or from `validate_plan` propagates; the state mutations already made
stay in place. -/
def run_planner (o : Oracles) (user_text : String) (state : AppState) :
    Except String ExecutionPlan × AppState :=
  let old_history := get_role_history state "planner"
  match o.planner (planner_input o user_text state.shared_state) old_history with
  | .error e => (.error e, state)
  | .ok (plan, new_history) =>
    let state := set_role_history state "planner" new_history
    let state := append_tool_log_delta o.tool_log_of state "planner" old_history new_history
    match validate_plan plan o.has_dynamic_tools with
    | .error e => (.error e, state)
    | .ok () => (.ok plan, state)

/-- The `task_packet` built by `run_worker_task` on success. -/
def mk_task_packet (task : PlanTask) (output_text : String) : TaskPacket :=
  { task_id := task.id
    worker := task.worker
    objective := task.objective
    status := "ok"
    output_text := output_text }

/-- `run_worker_task(runtime, task, state)`: route the task to the worker of
its role, run it, save history and tool-log delta, and append the
TaskOutputRecord to `shared_state.task_outputs`, incrementing `run_count`.
A raise from the agent happens before any state mutation. -/
def run_worker_task (o : Oracles) (task : PlanTask) (state : AppState) :
    Except String TaskPacket × AppState :=
  let agent := match task.worker with
    | Worker.static => o.static_worker
    | Worker.dynamic => o.dynamic_worker
  let role_key := match task.worker with
    | Worker.static => "static_worker"
    | Worker.dynamic => "dynamic_worker"
  let old_history := get_role_history state role_key
  match agent { task := task, shared_state := state.shared_state } old_history with
  | .error e => (.error e, state)
  | .ok (worker_output_text, new_history) =>
    let state := set_role_history state role_key new_history
    let state := append_tool_log_delta o.tool_log_of state role_key old_history new_history
    let packet := mk_task_packet task worker_output_text
    let state := { state with shared_state :=
      { state.shared_state with
        task_outputs := state.shared_state.task_outputs ++ [packet]
        run_count := state.shared_state.run_count + 1 } }
    (.ok packet, state)

/-- The `verifier_input` built by `run_verifier`: only the task outputs whose
task id is among the just-executed ids are passed on. -/
def verifier_input (user_text : String) (plan : ExecutionPlan) (state : AppState)
    (just_ran_task_ids : List String) : VerifierInput :=
  { user_request := user_text
    plan := plan
    just_ran_task_ids := just_ran_task_ids
    task_outputs := state.shared_state.task_outputs.filter
      (fun t => just_ran_task_ids.contains t.task_id) }

/-- `run_verifier(runtime, user_text, plan, state, just_ran_task_ids)`. -/
def run_verifier (o : Oracles) (user_text : String) (plan : ExecutionPlan)
    (state : AppState) (just_ran_task_ids : List String) :
    Except String VerificationVerdict × AppState :=
  let old_history := get_role_history state "verifier"
  match o.verifier (verifier_input user_text plan state just_ran_task_ids) old_history with
  | .error e => (.error e, state)
  | .ok (verdict, new_history) =>
    let state := set_role_history state "verifier" new_history
    let state := append_tool_log_delta o.tool_log_of state "verifier" old_history new_history
    (.ok verdict, state)

/-- The `reporter_input` built by `run_reporter`: the full accumulated task
outputs. -/
def reporter_input (user_text : String) (state : AppState) : ReporterInput :=
  { user_request := user_text
    task_outputs := state.shared_state.task_outputs
    notes := "Write the final response for the user. Use only supported information from task outputs." }

/-- `run_reporter(runtime, user_text, state)`. -/
def run_reporter (o : Oracles) (user_text : String) (state : AppState) :
    Except String String × AppState :=
  let old_history := get_role_history state "reporter"
  match o.reporter (reporter_input user_text state) old_history with
  | .error e => (.error e, state)
  | .ok (answer, new_history) =>
    let state := set_role_history state "reporter" new_history
    let state := append_tool_log_delta o.tool_log_of state "reporter" old_history new_history
    (.ok answer, state)

/-- The inner `for task in batch:` loop of `run_multiagent_orchestration`,
accumulating `just_ran_ids`.  A raise from a worker aborts the loop, keeping
the state mutated so far. -/
def run_batch_tasks (o : Oracles) (batch : List PlanTask) (state : AppState)
    (just_ran_ids : List String) : Except String (List String) × AppState :=
  match batch with
  | [] => (.ok just_ran_ids, state)
  | task :: rest =>
    match run_worker_task o task state with
    | (.error e, state) => (.error e, state)
    | (.ok packet, state) => run_batch_tasks o rest state (just_ran_ids ++ [packet.task_id])

/-- The `PlanTask` rebuilt from a `RetryTask` by the orchestrator. -/
def retry_to_task (r : RetryTask) : PlanTask :=
  { id := r.task_id
    worker := r.worker
    objective := r.objective
    depends_on := []
    can_run_parallel := false
    success_criteria := [] }

/-- The `for r in verdict.retry_tasks:` loop: each retry is dispatched once,
with no verification and no further retries. -/
def run_retries (o : Oracles) (retries : List RetryTask) (state : AppState) :
    Except String Unit × AppState :=
  match retries with
  | [] => (.ok (), state)
  | r :: rest =>
    match run_worker_task o (retry_to_task r) state with
    | (.error e, state) => (.error e, state)
    | (.ok _, state) => run_retries o rest state

/-- The `for batch in batches:` loop: execute the batch, verify it, then run
the verdict's retry tasks (one pass). -/
def run_batches (o : Oracles) (user_text : String) (plan : ExecutionPlan)
    (batches : List (List PlanTask)) (state : AppState) :
    Except String Unit × AppState :=
  match batches with
  | [] => (.ok (), state)
  | batch :: rest =>
    match run_batch_tasks o batch state [] with
    | (.error e, state) => (.error e, state)
    | (.ok just_ran_ids, state) =>
      match run_verifier o user_text plan state just_ran_ids with
      | (.error e, state) => (.error e, state)
      | (.ok verdict, state) =>
        match run_retries o verdict.retry_tasks state with
        | (.error e, state) => (.error e, state)
        | (.ok (), state) => run_batches o user_text plan rest state

/-- `run_multiagent_orchestration(user_text, state)`: planner → scheduler →
(per batch: dispatch, verify, retries) → reporter.  The initial
`shared_state` scaffolding is a no-op in this total-state model. -/
def run_multiagent_orchestration (o : Oracles) (user_text : String)
    (state : AppState) : Except String String × AppState :=
  match run_planner o user_text state with
  | (.error e, state) => (.error e, state)
  | (.ok plan, state) =>
    match topological_batches plan.tasks with
    | .error e => (.error e, state)
    | .ok batches =>
      match run_batches o user_text plan batches state with
      | (.error e, state) => (.error e, state)
      | (.ok (), state) => run_reporter o user_text state

/-- `chat_turn(user_text, chat_history, state)`: strip the message; an empty
message returns everything unchanged.  Otherwise run the orchestration,
turning a raise into the error string (its Python exception type name is
elided), and append the user/assistant pair to the chat history. -/
def chat_turn (o : Oracles) (user_text : String) (chat_history : List ChatMsg)
    (state : AppState) : String × List ChatMsg × AppState × String :=
  let user_text := pyStrip user_text
  if user_text = "" then ("", chat_history, state, state.tool_log)
  else
    let (result, state) := run_multiagent_orchestration o user_text state
    let assistant_text := match result with
      | .ok s => s
      | .error e => "[multi-agent orchestration error] " ++ e
    let chat_history := chat_history ++
      [{ role := "user", content := user_text },
       { role := "assistant", content := assistant_text }]
    ("", chat_history, state, state.tool_log)

/-- `reset()`: the constant empty UI triple (chat, state, tool log). -/
def reset : List ChatMsg × AppState × String :=
  ([],
   { role_histories := []
     tool_log := ""
     shared_state := { artifacts := [], findings := [], task_outputs := [], run_count := 0 } },
   "")

/-- The `clear.click(reset, inputs=None, outputs=[chat, state, tool_log])`
wiring: the Reset button replaces the three outputs with `reset`'s value,
reading none of the current state. -/
def clear_click (_current : List ChatMsg × AppState × String) :
    List ChatMsg × AppState × String :=
  reset

/-! ### Basic lemmas about the state helpers -/

theorem set_role_history_shared (st : AppState) (k : String) (h : List ModelMessage) :
    (set_role_history st k h).shared_state = st.shared_state := rfl

theorem append_tool_log_delta_shared (ex : List ModelMessage → String) (st : AppState)
    (k : String) (oldh newh : List ModelMessage) :
    (append_tool_log_delta ex st k oldh newh).shared_state = st.shared_state := by
  unfold append_tool_log_delta
  dsimp only
  split
  · rfl
  · split <;> rfl

theorem append_tool_log_delta_histories (ex : List ModelMessage → String) (st : AppState)
    (k : String) (oldh newh : List ModelMessage) :
    (append_tool_log_delta ex st k oldh newh).role_histories = st.role_histories := by
  unfold append_tool_log_delta
  dsimp only
  split
  · rfl
  · split <;> rfl

theorem lookup_cons_same (a : String) (b : List ModelMessage)
    (rest : List (String × List ModelMessage)) :
    List.lookup a ((a, b) :: rest) = some b := by
  simp only [List.lookup, beq_self_eq_true]

theorem lookup_cons_other (k' a : String) (b : List ModelMessage)
    (rest : List (String × List ModelMessage)) (h : k' ≠ a) :
    List.lookup k' ((a, b) :: rest) = List.lookup k' rest := by
  simp only [List.lookup]
  rw [show (k' == a) = false by simpa using h]

theorem lookup_append_single (d : List (String × List ModelMessage)) (k : String)
    (v : List ModelMessage) (k' : String) (hne : k' ≠ k) :
    (d ++ [(k, v)]).lookup k' = d.lookup k' := by
  induction d with
  | nil => rw [List.nil_append, lookup_cons_other _ _ _ _ hne]
  | cons p rest ih =>
    cases p with
    | mk a b =>
      by_cases hka : k' = a
      · subst hka
        simp only [List.cons_append, lookup_cons_same]
      · simp only [List.cons_append, lookup_cons_other _ _ _ _ hka]
        exact ih

theorem lookup_overwrite (d : List (String × List ModelMessage)) (k : String)
    (v : List ModelMessage) (k' : String) (hne : k' ≠ k) :
    (d.map (fun p => if p.1 == k then (k, v) else p)).lookup k' = d.lookup k' := by
  induction d with
  | nil => rfl
  | cons p rest ih =>
    cases p with
    | mk a b =>
      by_cases hak : a = k
      · subst hak
        simp only [List.map_cons, beq_self_eq_true, if_pos]
        rw [lookup_cons_other _ _ _ _ hne, lookup_cons_other _ _ _ _ hne]
        exact ih
      · simp only [List.map_cons,
          show ((a, b).1 == k) = false by simpa using hak, Bool.false_eq_true, if_neg,
          not_false_eq_true]
        by_cases hka : k' = a
        · subst hka
          rw [lookup_cons_same, lookup_cons_same]
        · rw [lookup_cons_other _ _ _ _ hka, lookup_cons_other _ _ _ _ hka]
          exact ih

theorem pyDictSet_lookup_ne (d : List (String × List ModelMessage)) (k : String)
    (v : List ModelMessage) (k' : String) (hne : k' ≠ k) :
    (pyDictSet d k v).lookup k' = d.lookup k' := by
  unfold pyDictSet
  split
  · exact lookup_overwrite _ _ _ _ hne
  · exact lookup_append_single _ _ _ _ hne

theorem get_role_history_set_ne (st : AppState) (k : String) (h : List ModelMessage)
    (k' : String) (hne : k' ≠ k) :
    get_role_history (set_role_history st k h) k' = get_role_history st k' := by
  unfold get_role_history set_role_history
  dsimp only
  rw [pyDictSet_lookup_ne _ _ _ _ hne]

theorem lookup_overwrite_eq (d : List (String × List ModelMessage)) (k : String)
    (v : List ModelMessage) (hany : d.any (fun p => p.1 == k) = true) :
    (d.map (fun p => if p.1 == k then (k, v) else p)).lookup k = some v := by
  induction d with
  | nil => simp at hany
  | cons p rest ih =>
    cases p with
    | mk a b =>
      by_cases hak : a = k
      · subst hak
        simp only [List.map_cons, beq_self_eq_true, if_pos]
        rw [lookup_cons_same]
      · simp only [List.map_cons,
          show ((a, b).1 == k) = false by simpa using hak, Bool.false_eq_true, if_neg,
          not_false_eq_true]
        rw [lookup_cons_other _ _ _ _ (fun he => hak he.symm)]
        exact ih (by simpa [hak] using hany)

theorem lookup_append_single_eq (d : List (String × List ModelMessage)) (k : String)
    (v : List ModelMessage) (hnone : d.any (fun p => p.1 == k) = false) :
    (d ++ [(k, v)]).lookup k = some v := by
  induction d with
  | nil => simp [lookup_cons_same]
  | cons p rest ih =>
    cases p with
    | mk a b =>
      have hak : ¬(a = k) := by
        intro hc
        simp [hc] at hnone
      simp only [List.cons_append, lookup_cons_other _ _ _ _ (fun he => hak he.symm)]
      exact ih (by simpa [hak] using hnone)

theorem pyDictSet_lookup_eq (d : List (String × List ModelMessage)) (k : String)
    (v : List ModelMessage) :
    (pyDictSet d k v).lookup k = some v := by
  unfold pyDictSet
  split
  · rename_i hany
    exact lookup_overwrite_eq _ _ _ hany
  · rename_i hany
    exact lookup_append_single_eq _ _ _ (Bool.not_eq_true _ ▸ hany)

theorem get_role_history_set_eq (st : AppState) (k : String) (h : List ModelMessage) :
    get_role_history (set_role_history st k h) k = h := by
  unfold get_role_history set_role_history
  dsimp only
  rw [pyDictSet_lookup_eq]

/-! ### Shared-state preservation and extension lemmas -/

theorem run_planner_shared (o : Oracles) (u : String) (st : AppState) :
    ((run_planner o u st).2).shared_state = st.shared_state := by
  unfold run_planner
  dsimp only
  split
  · rfl
  · split <;> rw [append_tool_log_delta_shared, set_role_history_shared]

theorem run_verifier_shared (o : Oracles) (u : String) (plan : ExecutionPlan)
    (st : AppState) (ids : List String) :
    ((run_verifier o u plan st ids).2).shared_state = st.shared_state := by
  unfold run_verifier
  dsimp only
  split
  · rfl
  · rw [append_tool_log_delta_shared, set_role_history_shared]

theorem run_reporter_shared (o : Oracles) (u : String) (st : AppState) :
    ((run_reporter o u st).2).shared_state = st.shared_state := by
  unfold run_reporter
  dsimp only
  split
  · rfl
  · rw [append_tool_log_delta_shared, set_role_history_shared]

theorem run_worker_task_ok (o : Oracles) (task : PlanTask) (st : AppState)
    (p : TaskPacket) (st' : AppState)
    (h : run_worker_task o task st = (.ok p, st')) :
    st'.shared_state.task_outputs = st.shared_state.task_outputs ++ [p] ∧
      st'.shared_state.run_count = st.shared_state.run_count + 1 := by
  unfold run_worker_task at h
  dsimp only at h
  split at h
  · exact absurd h (by simp)
  · rename_i out newh heq
    injection h with h1 h2
    subst h2
    injection h1 with hp
    subst hp
    constructor
    · simp [append_tool_log_delta_shared, set_role_history_shared]
    · simp [append_tool_log_delta_shared, set_role_history_shared]

theorem run_worker_task_error (o : Oracles) (task : PlanTask) (st : AppState)
    (e : String) (st' : AppState)
    (h : run_worker_task o task st = (.error e, st')) : st' = st := by
  unfold run_worker_task at h
  dsimp only at h
  split at h
  · injection h with h1 h2
    exact h2.symm
  · exact absurd h (by simp)

/-- State `st'` extends state `st`: the task-output sequence of `st` is an
unmodified prefix of that of `st'`, and `run_count` has grown by exactly the
number of appended records. -/
def sharedExtends (st st' : AppState) : Prop :=
  ∃ new, st'.shared_state.task_outputs = st.shared_state.task_outputs ++ new ∧
    st'.shared_state.run_count = st.shared_state.run_count + new.length

theorem sharedExtends_refl (st : AppState) : sharedExtends st st :=
  ⟨[], by simp⟩

theorem sharedExtends_of_shared_eq {st st' : AppState}
    (h : st'.shared_state = st.shared_state) : sharedExtends st st' :=
  ⟨[], by simp [h]⟩

theorem sharedExtends_trans {s1 s2 s3 : AppState}
    (h12 : sharedExtends s1 s2) (h23 : sharedExtends s2 s3) : sharedExtends s1 s3 := by
  obtain ⟨n1, ho1, hc1⟩ := h12
  obtain ⟨n2, ho2, hc2⟩ := h23
  exact ⟨n1 ++ n2, by simp [ho2, ho1], by simp [hc2, hc1, Nat.add_assoc]⟩

theorem run_worker_task_extends (o : Oracles) (task : PlanTask) (st : AppState) :
    sharedExtends st (run_worker_task o task st).2 := by
  rcases hw : run_worker_task o task st with ⟨r, st'⟩
  cases r with
  | error e => exact sharedExtends_of_shared_eq (by rw [run_worker_task_error o task st e st' hw])
  | ok p =>
    obtain ⟨ho, hc⟩ := run_worker_task_ok o task st p st' hw
    exact ⟨[p], ho, by simpa using hc⟩

/-- The ok-case of the inner batch loop: it appends one packet per executed
task and reports exactly the appended packets' task ids (after `acc`). -/
theorem run_batch_tasks_ok (o : Oracles) :
    ∀ (b : List PlanTask) (st : AppState) (acc ids : List String) (st' : AppState),
    run_batch_tasks o b st acc = (.ok ids, st') →
    ∃ new, st'.shared_state.task_outputs = st.shared_state.task_outputs ++ new ∧
      st'.shared_state.run_count = st.shared_state.run_count + new.length ∧
      ids = acc ++ new.map (fun p => p.task_id) := by
  intro b
  induction b with
  | nil =>
    intro st acc ids st' h
    unfold run_batch_tasks at h
    injection h with h1 h2
    injection h1 with h1
    exact ⟨[], by simp [h2], by simp [h2], by simp [h1]⟩
  | cons task rest ih =>
    intro st acc ids st' h
    unfold run_batch_tasks at h
    rcases hw : run_worker_task o task st with ⟨r, st1⟩
    rw [hw] at h
    cases r with
    | error e => simp at h
    | ok p =>
      obtain ⟨ho, hc⟩ := run_worker_task_ok o task st p st1 hw
      obtain ⟨new, ho2, hc2, hids⟩ := ih st1 (acc ++ [p.task_id]) ids st' h
      refine ⟨p :: new, ?_, ?_, ?_⟩
      · simp [ho2, ho]
      · simp [hc2, hc, Nat.add_assoc, Nat.add_comm 1]
      · simp [hids]

theorem run_batch_tasks_extends (o : Oracles) :
    ∀ (b : List PlanTask) (st : AppState) (acc : List String),
    sharedExtends st (run_batch_tasks o b st acc).2 := by
  intro b
  induction b with
  | nil => intro st acc; exact sharedExtends_refl st
  | cons task rest ih =>
    intro st acc
    unfold run_batch_tasks
    rcases hw : run_worker_task o task st with ⟨r, st1⟩
    have hx : sharedExtends st st1 := by
      have := run_worker_task_extends o task st
      rwa [hw] at this
    cases r with
    | error e => exact hx
    | ok p => exact sharedExtends_trans hx (ih st1 (acc ++ [p.task_id]))

theorem get_role_history_congr (st st' : AppState)
    (h : st'.role_histories = st.role_histories) (k : String) :
    get_role_history st' k = get_role_history st k := by
  unfold get_role_history
  rw [h]

/-- `run_worker_task` only touches the role history of its own worker role
(`"static_worker"` or `"dynamic_worker"`). -/
theorem run_worker_task_history_ne (o : Oracles) (task : PlanTask) (st : AppState)
    (k : String) (hk1 : k ≠ "static_worker") (hk2 : k ≠ "dynamic_worker") :
    get_role_history (run_worker_task o task st).2 k = get_role_history st k := by
  unfold run_worker_task
  cases htw : task.worker <;> dsimp only [htw] <;> split
  · rfl
  · rename_i out newh heq
    dsimp only
    rw [get_role_history_congr (set_role_history st "static_worker" newh) _
      (by simp [append_tool_log_delta_histories]) k]
    unfold get_role_history set_role_history
    dsimp only
    rw [pyDictSet_lookup_ne _ _ _ _ hk1]
  · rfl
  · rename_i out newh heq
    dsimp only
    rw [get_role_history_congr (set_role_history st "dynamic_worker" newh) _
      (by simp [append_tool_log_delta_histories]) k]
    unfold get_role_history set_role_history
    dsimp only
    rw [pyDictSet_lookup_ne _ _ _ _ hk2]

/-- The ok-case of the retry loop: exactly one packet per retry task, in
order, carrying the retry's id, worker, objective and status `"ok"`; the
verifier's role history is left untouched. -/
theorem run_retries_ok (o : Oracles) :
    ∀ (rs : List RetryTask) (st st' : AppState),
    run_retries o rs st = (.ok (), st') →
    ∃ pks, st'.shared_state.task_outputs = st.shared_state.task_outputs ++ pks ∧
      st'.shared_state.run_count = st.shared_state.run_count + pks.length ∧
      pks.map (fun p => p.task_id) = rs.map (fun r => r.task_id) ∧
      pks.map (fun p => p.worker) = rs.map (fun r => r.worker) ∧
      pks.map (fun p => p.objective) = rs.map (fun r => r.objective) ∧
      (∀ p ∈ pks, p.status = "ok") ∧
      get_role_history st' "verifier" = get_role_history st "verifier" := by
  intro rs
  induction rs with
  | nil =>
    intro st st' h
    unfold run_retries at h
    injection h with h1 h2
    exact ⟨[], by simp [h2], by simp [h2], by simp, by simp, by simp, by simp, by simp [h2]⟩
  | cons r rest ih =>
    intro st st' h
    unfold run_retries at h
    rcases hw : run_worker_task o (retry_to_task r) st with ⟨res, st1⟩
    rw [hw] at h
    cases res with
    | error e => simp at h
    | ok p =>
      obtain ⟨ho, hc⟩ := run_worker_task_ok o (retry_to_task r) st p st1 hw
      have hp : p = mk_task_packet (retry_to_task r) p.output_text := by
        unfold run_worker_task at hw
        dsimp only at hw
        split at hw
        · exact absurd hw (by simp)
        · rename_i out newh heq
          injection hw with h1 h2
          injection h1 with h1
          subst h1
          rfl
      obtain ⟨pks, ho2, hc2, hid, hwk, hobj, hst, hver⟩ := ih st1 st' h
      have hverw : get_role_history st1 "verifier" = get_role_history st "verifier" := by
        have := run_worker_task_history_ne o (retry_to_task r) st "verifier"
          (by decide) (by decide)
        rwa [hw] at this
      refine ⟨p :: pks, ?_, ?_, ?_, ?_, ?_, ?_, ?_⟩
      · simp [ho2, ho]
      · simp [hc2, hc, Nat.add_assoc, Nat.add_comm 1]
      · simp only [List.map_cons, hid]
        rw [hp]
        rfl
      · simp only [List.map_cons, hwk]
        rw [hp]
        rfl
      · simp only [List.map_cons, hobj]
        rw [hp]
        rfl
      · intro q hq
        rcases List.mem_cons.mp hq with hq | hq
        · rw [hq, hp]
          rfl
        · exact hst q hq
      · rw [hver, hverw]

theorem run_retries_extends (o : Oracles) :
    ∀ (rs : List RetryTask) (st : AppState), sharedExtends st (run_retries o rs st).2 := by
  intro rs
  induction rs with
  | nil => intro st; exact sharedExtends_refl st
  | cons r rest ih =>
    intro st
    unfold run_retries
    rcases hw : run_worker_task o (retry_to_task r) st with ⟨res, st1⟩
    have hx : sharedExtends st st1 := by
      have := run_worker_task_extends o (retry_to_task r) st
      rwa [hw] at this
    cases res with
    | error e => exact hx
    | ok p => exact sharedExtends_trans hx (ih st1)

theorem run_batches_extends (o : Oracles) (u : String) (plan : ExecutionPlan) :
    ∀ (bs : List (List PlanTask)) (st : AppState),
    sharedExtends st (run_batches o u plan bs st).2 := by
  intro bs
  induction bs with
  | nil => intro st; exact sharedExtends_refl st
  | cons b rest ih =>
    intro st
    unfold run_batches
    rcases hb : run_batch_tasks o b st [] with ⟨r, st1⟩
    have hx1 : sharedExtends st st1 := by
      have := run_batch_tasks_extends o b st []
      rwa [hb] at this
    cases r with
    | error e => exact hx1
    | ok ids =>
      dsimp only
      rcases hv : run_verifier o u plan st1 ids with ⟨rv, st2⟩
      have hx2 : sharedExtends st1 st2 := by
        apply sharedExtends_of_shared_eq
        have := run_verifier_shared o u plan st1 ids
        rwa [hv] at this
      cases rv with
      | error e => exact sharedExtends_trans hx1 hx2
      | ok verdict =>
        dsimp only
        rcases hr : run_retries o verdict.retry_tasks st2 with ⟨rr, st3⟩
        have hx3 : sharedExtends st2 st3 := by
          have := run_retries_extends o verdict.retry_tasks st2
          rwa [hr] at this
        cases rr with
        | error e => exact sharedExtends_trans hx1 (sharedExtends_trans hx2 hx3)
        | ok u' =>
          cases u'
          exact sharedExtends_trans hx1 (sharedExtends_trans hx2
            (sharedExtends_trans hx3 (ih st3)))

theorem run_multiagent_orchestration_extends (o : Oracles) (u : String) (st : AppState) :
    sharedExtends st (run_multiagent_orchestration o u st).2 := by
  unfold run_multiagent_orchestration
  rcases hp : run_planner o u st with ⟨r, st1⟩
  have hx1 : sharedExtends st st1 := by
    apply sharedExtends_of_shared_eq
    have := run_planner_shared o u st
    rwa [hp] at this
  cases r with
  | error e => exact hx1
  | ok plan =>
    dsimp only
    cases topological_batches plan.tasks with
    | error e => exact hx1
    | ok batches =>
      dsimp only
      rcases hb : run_batches o u plan batches st1 with ⟨rb, st2⟩
      have hx2 : sharedExtends st1 st2 := by
        have := run_batches_extends o u plan batches st1
        rwa [hb] at this
      cases rb with
      | error e => exact sharedExtends_trans hx1 hx2
      | ok u' =>
        cases u'
        have hx3 : sharedExtends st2 (run_reporter o u st2).2 :=
          sharedExtends_of_shared_eq (run_reporter_shared o u st2)
        exact sharedExtends_trans hx1 (sharedExtends_trans hx2 hx3)

/-! ### Sample data for witnesses -/

/-- A concrete static task used by the witnesses. -/
def sampleTaskA : PlanTask := ⟨"t1", Worker.static, "extract strings", [], true, []⟩

/-- A second concrete static task used by the witnesses. -/
def sampleTaskB : PlanTask := ⟨"t2", Worker.static, "look up hashes", [], true, []⟩

/-- A concrete plan of two independent parallel-eligible static tasks. -/
def samplePlan : ExecutionPlan := ⟨[sampleTaskA, sampleTaskB], "technical_markdown"⟩

/-- The empty session state (the initial `gr.State` value). -/
def emptyAppState : AppState := ⟨[], "", ⟨[], [], [], 0⟩⟩

/-- A concrete well-behaved oracle bundle used by the witnesses. -/
def oSample : Oracles :=
  { planner := fun _ _ => .ok (samplePlan, ["plan-msg"])
    static_worker := fun inp _ => .ok ("findings for " ++ inp.task.id, ["worker-msg"])
    dynamic_worker := fun _ _ => .error "no dynamic backend"
    verifier := fun _ _ => .ok (⟨true, [], []⟩, ["verifier-msg"])
    reporter := fun _ _ => .ok ("final report", ["reporter-msg"])
    tool_log_of := fun _ => ""
    static_ids := ["stringsmcp"]
    dynamic_ids := [] }

/-! ### Claim theorems -/

/-- C8: session reset is idempotent — the Reset handler ignores the current
(chat, state, tool-log) triple and always produces the same empty result,
with no role histories, an empty tool log, and the shared state reset to
empty artifacts, findings, task outputs and `run_count = 0`; applying it
twice equals applying it once. -/
theorem C8_session_reset_idempotent :
    ∀ s : List ChatMsg × AppState × String,
      clear_click (clear_click s) = clear_click s ∧
      clear_click s =
        ([],
         { role_histories := []
           tool_log := ""
           shared_state :=
             { artifacts := [], findings := [], task_outputs := [], run_count := 0 } },
         "") := by
  intro s
  exact ⟨rfl, rfl⟩

/-- C10: an empty or whitespace-only user message is a no-op —
`chat_turn` returns the chat history, session state and tool log unchanged
and performs no orchestration (the result does not depend on any of the
agent oracles, so no planner, worker, verifier or reporter call is made). -/
theorem C10_blank_message_no_op (o : Oracles) (user_text : String)
    (chat_history : List ChatMsg) (state : AppState)
    (h : pyStrip user_text = "") :
    chat_turn o user_text chat_history state =
      ("", chat_history, state, state.tool_log) := by
  unfold chat_turn
  rw [h]
  simp

/-- Witness for C10 at the concrete whitespace-only message `"   "`. -/
theorem C10_blank_message_no_op_witness :
    pyStrip "   " = "" ∧
      chat_turn oSample "   " [] emptyAppState = ("", [], emptyAppState, "") :=
  ⟨by decide, C10_blank_message_no_op oSample "   " [] emptyAppState (by decide)⟩

/-- C9: every task execution appends exactly one TaskOutputRecord and
increments `run_count` by exactly one; a failed worker call changes nothing;
a whole orchestration run only ever appends records, growing `run_count` by
exactly the number of appended records, so `run_count` is monotone and,
starting from a state where it equals the record count (e.g. the empty
state), it always equals the number of records. -/
theorem C9_run_count_tracks_outputs :
    (∀ (o : Oracles) (task : PlanTask) (st : AppState) (p : TaskPacket) (st' : AppState),
       run_worker_task o task st = (.ok p, st') →
       st'.shared_state.task_outputs = st.shared_state.task_outputs ++ [p] ∧
         st'.shared_state.run_count = st.shared_state.run_count + 1) ∧
    (∀ (o : Oracles) (task : PlanTask) (st : AppState) (e : String) (st' : AppState),
       run_worker_task o task st = (.error e, st') → st' = st) ∧
    (∀ (o : Oracles) (u : String) (st : AppState),
       ∃ new,
         (run_multiagent_orchestration o u st).2.shared_state.task_outputs =
             st.shared_state.task_outputs ++ new ∧
           (run_multiagent_orchestration o u st).2.shared_state.run_count =
             st.shared_state.run_count + new.length) ∧
    (∀ (o : Oracles) (u : String) (st : AppState),
       st.shared_state.run_count = st.shared_state.task_outputs.length →
       (run_multiagent_orchestration o u st).2.shared_state.run_count =
         (run_multiagent_orchestration o u st).2.shared_state.task_outputs.length) := by
  refine ⟨run_worker_task_ok, run_worker_task_error,
    run_multiagent_orchestration_extends, ?_⟩
  intro o u st h
  obtain ⟨new, ho, hc⟩ := run_multiagent_orchestration_extends o u st
  rw [ho, hc, h, List.length_append]

/-- Witness for C9 at a concrete worker execution from the empty state, and
for the run-count bookkeeping of a concrete full orchestration run. -/
theorem C9_run_count_tracks_outputs_witness :
    ((run_worker_task oSample sampleTaskA emptyAppState).2.shared_state.task_outputs =
        emptyAppState.shared_state.task_outputs ++
          [mk_task_packet sampleTaskA "findings for t1"] ∧
      (run_worker_task oSample sampleTaskA emptyAppState).2.shared_state.run_count =
        emptyAppState.shared_state.run_count + 1) ∧
    (run_multiagent_orchestration oSample "analyze" emptyAppState).2.shared_state.run_count =
      (run_multiagent_orchestration oSample "analyze" emptyAppState).2.shared_state.task_outputs.length :=
  ⟨C9_run_count_tracks_outputs.1 oSample sampleTaskA emptyAppState
      (mk_task_packet sampleTaskA "findings for t1")
      (run_worker_task oSample sampleTaskA emptyAppState).2 rfl,
   C9_run_count_tracks_outputs.2.2.2 oSample "analyze" emptyAppState rfl⟩

/-- C4: for a plan of exactly two tasks with no dependencies and distinct
ids (a valid plan), the scheduler yields one batch containing both when both
are parallel-eligible, and two singleton batches when neither is. -/
theorem C4_two_task_batching (t1 t2 : PlanTask)
    (hne : t1.id ≠ t2.id)
    (h1 : t1.depends_on = []) (h2 : t2.depends_on = []) :
    (t1.can_run_parallel = true → t2.can_run_parallel = true →
      topological_batches [t1, t2] = .ok [[t1, t2]]) ∧
    (t1.can_run_parallel = false → t2.can_run_parallel = false →
      topological_batches [t1, t2] = .ok [[t1], [t2]]) := by
  have hd : dictOfTasks [t1, t2] = [t1, t2] := by
    simp [dictOfTasks, hne]
  constructor
  · intro hp1 hp2
    unfold topological_batches
    rw [hd, topoLoop]
    simp [h1, h2, hp1, hp2]
    rw [topoLoop]
    simp
  · intro hp1 hp2
    unfold topological_batches
    rw [hd, topoLoop]
    simp [h1, h2, hp1, hp2]
    rw [topoLoop]
    simp

/-- Witness for C4 at two concrete parallel-eligible tasks and two concrete
serial tasks. -/
theorem C4_two_task_batching_witness :
    topological_batches [sampleTaskA, sampleTaskB] = .ok [[sampleTaskA, sampleTaskB]] ∧
    topological_batches
        [⟨"s1", Worker.static, "one", [], false, []⟩,
         ⟨"s2", Worker.static, "two", [], false, []⟩] =
      .ok [[⟨"s1", Worker.static, "one", [], false, []⟩],
           [⟨"s2", Worker.static, "two", [], false, []⟩]] :=
  ⟨(C4_two_task_batching sampleTaskA sampleTaskB (by decide) rfl rfl).1 rfl rfl,
   (C4_two_task_batching ⟨"s1", Worker.static, "one", [], false, []⟩
      ⟨"s2", Worker.static, "two", [], false, []⟩ (by decide) rfl rfl).2 rfl rfl⟩

/-- A concrete plan of two sibling parallel-eligible static tasks together
with a failing static worker, exercising the worker-failure path. -/
def c1Task1 : PlanTask := ⟨"c1", Worker.static, "strings", [], true, []⟩

/-- The second sibling task of the failing-worker scenario. -/
def c1Task2 : PlanTask := ⟨"c2", Worker.static, "hashes", [], true, []⟩

/-- Oracle bundle whose static worker always raises `"boom"`. -/
def oFailing : Oracles :=
  { planner := fun _ _ => .ok (⟨[c1Task1, c1Task2], "technical_markdown"⟩, [])
    static_worker := fun _ _ => .error "boom"
    dynamic_worker := fun _ _ => .error "boom"
    verifier := fun _ _ => .ok (⟨true, [], []⟩, [])
    reporter := fun _ _ => .ok ("report", [])
    tool_log_of := fun _ => ""
    static_ids := ["stringsmcp"]
    dynamic_ids := [] }

/-- C1 counterexample: with a two-task parallel batch whose first worker
call raises, the orchestration turn aborts with that exception; no
TaskOutputRecord at all is recorded (in particular none with status
`"failed"`), and the sibling task is never executed. -/
theorem C1_counterexample :
    (run_multiagent_orchestration oFailing "analyze" emptyAppState).1 = .error "boom" ∧
    (run_multiagent_orchestration oFailing "analyze" emptyAppState).2.shared_state.task_outputs
      = [] := by
  have hb : topological_batches [c1Task1, c1Task2] = .ok [[c1Task1, c1Task2]] := by
    unfold topological_batches
    rw [show dictOfTasks [c1Task1, c1Task2] = [c1Task1, c1Task2] by
      simp [dictOfTasks, c1Task1, c1Task2]]
    rw [topoLoop]
    simp [c1Task1, c1Task2]
    rw [topoLoop]
    simp
  have hrun : run_multiagent_orchestration oFailing "analyze" emptyAppState =
      (.error "boom", { emptyAppState with role_histories := [("planner", [])] }) := by
    unfold run_multiagent_orchestration
    rw [show run_planner oFailing "analyze" emptyAppState =
        (.ok ⟨[c1Task1, c1Task2], "technical_markdown"⟩,
          { emptyAppState with role_histories := [("planner", [])] }) from rfl]
    dsimp only
    rw [hb]
    rfl
  rw [hrun]
  exact ⟨rfl, rfl⟩

/-- C1 (amended): a worker call failure is not recovered — `run_worker_task`
propagates the exception with the state unchanged, and the batch loop aborts
without executing the remaining sibling tasks; no `"failed"` record is
appended. -/
theorem C1_worker_failure_aborts_batch (o : Oracles) (task : PlanTask)
    (st : AppState) (e : String)
    (hfail : (match task.worker with
        | Worker.static => o.static_worker
        | Worker.dynamic => o.dynamic_worker)
        { task := task, shared_state := st.shared_state }
        (get_role_history st (match task.worker with
          | Worker.static => "static_worker"
          | Worker.dynamic => "dynamic_worker")) = .error e) :
    run_worker_task o task st = (.error e, st) ∧
    ∀ rest acc, run_batch_tasks o (task :: rest) st acc = (.error e, st) := by
  have h1 : run_worker_task o task st = (.error e, st) := by
    unfold run_worker_task
    cases htw : task.worker <;> simp only [htw] at hfail ⊢ <;> rw [hfail]
  refine ⟨h1, fun rest acc => ?_⟩
  unfold run_batch_tasks
  rw [h1]

/-- Witness for the amended C1 at a concrete failing worker call. -/
theorem C1_worker_failure_aborts_batch_witness :
    run_worker_task oFailing c1Task1 emptyAppState = (.error "boom", emptyAppState) ∧
      ∀ rest acc, run_batch_tasks oFailing (c1Task1 :: rest) emptyAppState acc =
        (.error "boom", emptyAppState) :=
  C1_worker_failure_aborts_batch oFailing c1Task1 emptyAppState "boom" rfl

/-! ### Characterization of plan validation -/

theorem validateIds_ok_conditions :
    ∀ (ts : List PlanTask) (ids : List String) (hd : Bool) (r : List String),
    validateIds ts ids hd = .ok r →
    (∀ t ∈ ts, t.id ∉ ids) ∧ (ts.map fun t => t.id).Nodup ∧
      (∀ t ∈ ts, t.worker = Worker.dynamic → hd = true) ∧
      r = ids ++ ts.map (fun t => t.id) := by
  intro ts
  induction ts with
  | nil =>
    intro ids hd r h
    unfold validateIds at h
    injection h with h
    exact ⟨by simp, by simp, by simp, by simp [h]⟩
  | cons t rest ih =>
    intro ids hd r h
    unfold validateIds at h
    split at h
    · exact absurd h (by simp)
    · split at h
      · exact absurd h (by simp)
      · rename_i hcont hdyn
        obtain ⟨ha, hb, hc, hr⟩ := ih (ids ++ [t.id]) hd r h
        have htid : t.id ∉ ids := by
          intro hmem
          exact hcont (by simpa using hmem)
        refine ⟨?_, ?_, ?_, ?_⟩
        · intro u hu
          rcases List.mem_cons.mp hu with hu | hu
          · rw [hu]; exact htid
          · intro hmem
            exact (ha u hu) (by simp [hmem])
        · rw [List.map_cons, List.nodup_cons]
          refine ⟨?_, hb⟩
          intro hmem
          obtain ⟨u, hu, hue⟩ := List.mem_map.mp hmem
          exact (ha u hu) (by simp [hue])
        · intro u hu
          rcases List.mem_cons.mp hu with hu | hu
          · rw [hu]
            intro hw
            by_cases hdb : hd = true
            · exact hdb
            · exfalso
              apply hdyn
              have hdf : hd = false := Bool.not_eq_true _ ▸ hdb
              simp [hw, hdf]
          · exact hc u hu
        · rw [hr]
          simp

theorem validateIds_ok_of_conditions :
    ∀ (ts : List PlanTask) (ids : List String) (hd : Bool),
    (∀ t ∈ ts, t.id ∉ ids) → (ts.map fun t => t.id).Nodup →
    (∀ t ∈ ts, t.worker = Worker.dynamic → hd = true) →
    validateIds ts ids hd = .ok (ids ++ ts.map (fun t => t.id)) := by
  intro ts
  induction ts with
  | nil => intro ids hd _ _ _; simp [validateIds]
  | cons t rest ih =>
    intro ids hd h1 h2 h3
    unfold validateIds
    rw [if_neg (by simpa using h1 t (by simp))]
    rw [if_neg ?hdynneg]
    case hdynneg =>
      intro hcond
      rw [Bool.and_eq_true] at hcond
      have hw : t.worker = Worker.dynamic := by simpa using hcond.1
      have := h3 t (by simp) hw
      simp [this] at hcond
    rw [List.map_cons, List.nodup_cons] at h2
    have := ih (ids ++ [t.id]) hd ?_ h2.2 (fun u hu => h3 u (by simp [hu]))
    · rw [this]
      simp
    · intro u hu hmem
      rcases List.mem_append.mp hmem with hm | hm
      · exact h1 u (by simp [hu]) hm
      · exact h2.1 (List.mem_map.mpr ⟨u, hu, by simpa using hm⟩)

theorem validateDepList_ok_iff (tid : String) (deps ids : List String) :
    validateDepList tid deps ids = .ok () ↔ ∀ d ∈ deps, d ∈ ids := by
  induction deps with
  | nil => simp [validateDepList]
  | cons d rest ih =>
    unfold validateDepList
    by_cases hmem : d ∈ ids
    · rw [if_pos (by simpa using hmem)]
      rw [ih]
      constructor
      · intro h x hx
        rcases List.mem_cons.mp hx with hx | hx
        · rw [hx]; exact hmem
        · exact h x hx
      · intro h x hx
        exact h x (by simp [hx])
    · rw [if_neg (by simpa using hmem)]
      constructor
      · intro h
        exact absurd h (by simp)
      · intro h
        exact absurd (h d (by simp)) hmem

theorem validateDeps_ok_iff (ts : List PlanTask) (ids : List String) :
    validateDeps ts ids = .ok () ↔ ∀ t ∈ ts, ∀ d ∈ t.depends_on, d ∈ ids := by
  induction ts with
  | nil => simp [validateDeps]
  | cons t rest ih =>
    unfold validateDeps
    rcases hx : validateDepList t.id t.depends_on ids with e | u
    · constructor
      · intro h
        exact absurd h (by simp)
      · intro h
        have := (validateDepList_ok_iff t.id t.depends_on ids).mpr (h t (by simp))
        rw [this] at hx
        exact absurd hx (by simp)
    · cases u
      rw [ih]
      constructor
      · intro h x hxm
        rcases List.mem_cons.mp hxm with hxm | hxm
        · rw [hxm]
          exact (validateDepList_ok_iff t.id t.depends_on ids).mp hx
        · exact h x hxm
      · intro h x hxm
        exact h x (by simp [hxm])

/-- Success characterization of `validate_plan`: the plan passes exactly when
task ids are pairwise distinct, every dynamic task has dynamic toolsets
available, and every dependency id names a task of the plan.  (No condition
whatsoever is checked for the static role.) -/
theorem validate_plan_ok_iff (plan : ExecutionPlan) (hd : Bool) :
    validate_plan plan hd = .ok () ↔
      ((plan.tasks.map fun t => t.id).Nodup ∧
        (∀ t ∈ plan.tasks, t.worker = Worker.dynamic → hd = true) ∧
        (∀ t ∈ plan.tasks, ∀ d ∈ t.depends_on, d ∈ plan.tasks.map (fun t => t.id))) := by
  unfold validate_plan
  rcases hx : validateIds plan.tasks [] hd with e | ids
  · constructor
    · intro h
      exact absurd h (by simp)
    · intro ⟨h1, h2, h3⟩
      have := validateIds_ok_of_conditions plan.tasks [] hd (by simp) h1 h2
      rw [this] at hx
      exact absurd hx (by simp)
  · obtain ⟨ha, hb, hc, hr⟩ := validateIds_ok_conditions plan.tasks [] hd ids hx
    rw [List.nil_append] at hr
    subst hr
    rw [validateDeps_ok_iff]
    constructor
    · intro h
      exact ⟨hb, hc, h⟩
    · intro ⟨h1, h2, h3⟩
      exact h3

theorem except_unit_error_iff (x : Except String Unit) :
    (∃ e, x = .error e) ↔ ¬(x = .ok ()) := by
  cases x with
  | error e => simp
  | ok u => cases u; simp

/-- C5 counterexample: with the only configured MCP server being a dynamic
one (`"vm_sandbox"`), the static capability partition is empty, yet a plan
containing a static task passes validation — `validate_plan` never inspects
the static partition, contradicting the claim that validation rejects
exactly when any role's partition (static included) is empty. -/
theorem C5_counterexample :
    (partition_toolsets ["vm_sandbox"]).1 = [] ∧
    validate_plan
        { tasks := [⟨"t1", Worker.static, "extract strings", [], false, []⟩]
          final_output_style := "technical_markdown" }
        (!(partition_toolsets ["vm_sandbox"]).2.isEmpty) = .ok () :=
  ⟨rfl, rfl⟩

/-- C5 (amended): plan validation rejects exactly when the plan has a
duplicate task id, or a dynamic-role task while no dynamic toolsets are
configured (the static role's partition is never checked), or a dependency
id naming no task of the plan; and on any rejection surfaced through the
planner stage the turn aborts with `shared_state.task_outputs` unchanged
(zero TaskOutputRecords recorded). -/
theorem C5_validation_rejects_and_aborts :
    (∀ (plan : ExecutionPlan) (hd : Bool),
       (∃ e, validate_plan plan hd = .error e) ↔
         (¬ (plan.tasks.map fun t => t.id).Nodup ∨
          (∃ t ∈ plan.tasks, t.worker = Worker.dynamic ∧ hd = false) ∨
          (∃ t ∈ plan.tasks, ∃ d ∈ t.depends_on, d ∉ plan.tasks.map (fun t => t.id)))) ∧
    (∀ (o : Oracles) (u : String) (st : AppState) (plan : ExecutionPlan)
       (hist : List ModelMessage) (e : String),
       o.planner (planner_input o u st.shared_state) (get_role_history st "planner") =
         .ok (plan, hist) →
       validate_plan plan o.has_dynamic_tools = .error e →
       (run_multiagent_orchestration o u st).1 = .error e ∧
       (run_multiagent_orchestration o u st).2.shared_state.task_outputs =
         st.shared_state.task_outputs) := by
  constructor
  · intro plan hd
    rw [except_unit_error_iff, validate_plan_ok_iff]
    constructor
    · intro h
      by_cases h1 : (plan.tasks.map fun t => t.id).Nodup
      · right
        by_cases h2 : ∀ t ∈ plan.tasks, t.worker = Worker.dynamic → hd = true
        · right
          by_cases h3 : ∀ t ∈ plan.tasks, ∀ d ∈ t.depends_on,
              d ∈ plan.tasks.map (fun t => t.id)
          · exact absurd ⟨h1, h2, h3⟩ h
          · push_neg at h3
            obtain ⟨t, ht, d, hd', hdm⟩ := h3
            exact ⟨t, ht, d, hd', hdm⟩
        · left
          push_neg at h2
          obtain ⟨t, ht, hw, hhd⟩ := h2
          exact ⟨t, ht, hw, Bool.not_eq_true _ ▸ hhd⟩
      · exact Or.inl h1
    · intro h hc
      obtain ⟨h1, h2, h3⟩ := hc
      rcases h with h | h | h
      · exact h h1
      · obtain ⟨t, ht, hw, hhd⟩ := h
        rw [h2 t ht hw] at hhd
        exact absurd hhd (by simp)
      · obtain ⟨t, ht, d, hd', hdm⟩ := h
        exact hdm (h3 t ht d hd')
  · intro o u st plan hist e hpl hval
    have hshared :
        (append_tool_log_delta o.tool_log_of (set_role_history st "planner" hist)
          "planner" (get_role_history st "planner") hist).shared_state = st.shared_state := by
      rw [append_tool_log_delta_shared, set_role_history_shared]
    refine ⟨?_, ?_⟩
    · unfold run_multiagent_orchestration run_planner
      dsimp only
      rw [hpl]
      dsimp only
      rw [hval]
    · unfold run_multiagent_orchestration run_planner
      dsimp only
      rw [hpl]
      dsimp only
      rw [hval]
      dsimp only
      rw [hshared]

/-- A plan with a duplicate task id, as produced by a misbehaving planner. -/
def dupPlan : ExecutionPlan :=
  ⟨[⟨"d", Worker.static, "first", [], false, []⟩,
    ⟨"d", Worker.static, "second", [], false, []⟩], "technical_markdown"⟩

/-- Oracle bundle whose planner emits the duplicate-id plan. -/
def oDupPlanner : Oracles :=
  { planner := fun _ _ => .ok (dupPlan, [])
    static_worker := fun _ _ => .ok ("out", [])
    dynamic_worker := fun _ _ => .error "no dynamic backend"
    verifier := fun _ _ => .ok (⟨true, [], []⟩, [])
    reporter := fun _ _ => .ok ("report", [])
    tool_log_of := fun _ => ""
    static_ids := ["stringsmcp"]
    dynamic_ids := [] }

/-- Witness for the amended C5: a duplicate-id plan aborts the turn with the
duplicate-id error and zero TaskOutputRecords recorded. -/
theorem C5_validation_rejects_and_aborts_witness :
    (run_multiagent_orchestration oDupPlanner "go" emptyAppState).1 =
        .error "Duplicate task id: d" ∧
      (run_multiagent_orchestration oDupPlanner "go" emptyAppState).2.shared_state.task_outputs =
        emptyAppState.shared_state.task_outputs :=
  C5_validation_rejects_and_aborts.2 oDupPlanner "go" emptyAppState dupPlan []
    "Duplicate task id: d" rfl rfl

/-! ### Scheduler correctness -/

/-- The `ready` list of one `topological_batches` iteration. -/
def readyOf (remaining : List PlanTask) (done : List String) : List PlanTask :=
  remaining.filter (fun t => t.depends_on.all (fun dep => done.contains dep))

/-- The batches emitted by one `topological_batches` iteration: the
parallel-eligible ready tasks as one batch (when any), then each serial
ready task as its own singleton batch. -/
def newBatchesOf (ready : List PlanTask) : List (List PlanTask) :=
  (if (ready.filter (fun t => t.can_run_parallel)).isEmpty then []
   else [ready.filter (fun t => t.can_run_parallel)]) ++
  (ready.filter (fun t => !t.can_run_parallel)).map (fun t => [t])

theorem topoLoop_nil (done : List String) (batches : List (List PlanTask)) :
    topoLoop [] done batches = .ok batches := by
  rw [topoLoop]
  simp

theorem topoLoop_cycle (remaining : List PlanTask) (done : List String)
    (batches : List (List PlanTask)) (hne : remaining ≠ [])
    (hr : readyOf remaining done = []) :
    topoLoop remaining done batches = .error "Cycle detected in plan dependencies" := by
  rw [topoLoop]
  rw [if_neg (by simpa [List.isEmpty_iff] using hne)]
  rw [dif_pos (by simpa [List.isEmpty_iff, readyOf] using hr)]

theorem topoLoop_step (remaining : List PlanTask) (done : List String)
    (batches : List (List PlanTask)) (hne : remaining ≠ [])
    (hr : readyOf remaining done ≠ []) :
    topoLoop remaining done batches =
      topoLoop
        (remaining.filter
          (fun t => !((readyOf remaining done).map (fun t => t.id)).contains t.id))
        (done ++ (readyOf remaining done).map (fun t => t.id))
        (batches ++ newBatchesOf (readyOf remaining done)) := by
  rw [topoLoop]
  rw [if_neg (by simpa [List.isEmpty_iff] using hne)]
  rw [dif_neg (by simpa [List.isEmpty_iff, readyOf] using hr)]
  rfl

/-- The dependency relation of a plan: `a` depends directly on `b`. -/
def taskDepRel (tasks : List PlanTask) (a b : PlanTask) : Prop :=
  a ∈ tasks ∧ b ∈ tasks ∧ b.id ∈ a.depends_on

/-- The plan's dependency relation has no cycle: no task transitively
depends on itself. -/
def Acyclic (tasks : List PlanTask) : Prop :=
  ∀ t ∈ tasks, ¬ Relation.TransGen (taskDepRel tasks) t t

/-- In a finite set in which every element has an `R`-successor inside the
set, some element lies on an `R`-cycle. -/
theorem exists_transGen_self {α : Type} [DecidableEq α] (S : List α) (R : α → α → Prop)
    (hne : S ≠ []) (hstep : ∀ a ∈ S, ∃ b, b ∈ S ∧ R a b) :
    ∃ a ∈ S, Relation.TransGen R a a := by
  classical
  obtain ⟨a0, ha0⟩ : ∃ a, a ∈ S := by
    cases S with
    | nil => exact absurd rfl hne
    | cons x xs => exact ⟨x, by simp⟩
  let F : α → α := fun a => if h : a ∈ S then (hstep a h).choose else a
  have hF : ∀ a ∈ S, F a ∈ S ∧ R a (F a) := by
    intro a ha
    have := (hstep a ha).choose_spec
    simpa [F, dif_pos ha] using this
  let g : ℕ → α := fun n => F^[n] a0
  have hgS : ∀ n, g n ∈ S := by
    intro n
    induction n with
    | zero => exact ha0
    | succ n ih =>
      have : g (n + 1) = F (g n) := Function.iterate_succ_apply' F n a0
      rw [this]
      exact (hF (g n) ih).1
  have hchain : ∀ i k, Relation.TransGen R (g i) (g (i + k + 1)) := by
    intro i k
    induction k with
    | zero =>
      have : g (i + 0 + 1) = F (g i) := Function.iterate_succ_apply' F i a0
      rw [this]
      exact Relation.TransGen.single (hF (g i) (hgS i)).2
    | succ k ih =>
      have : g (i + (k + 1) + 1) = F (g (i + k + 1)) := by
        rw [show i + (k + 1) + 1 = (i + k + 1) + 1 by omega]
        exact Function.iterate_succ_apply' F (i + k + 1) a0
      rw [this]
      exact ih.tail (hF (g (i + k + 1)) (hgS (i + k + 1))).2
  obtain ⟨i, hi, j, hj, hij, hgij⟩ :=
    Finset.exists_ne_map_eq_of_card_lt_of_maps_to
      (s := Finset.range (S.toFinset.card + 1)) (t := S.toFinset)
      (by simp) (fun n _ => List.mem_toFinset.mpr (hgS n))
  rcases Nat.lt_or_ge i j with hlt | hge
  · refine ⟨g i, hgS i, ?_⟩
    have := hchain i (j - i - 1)
    rw [show i + (j - i - 1) + 1 = j by omega] at this
    rw [← hgij] at this
    exact this
  · have hlt : j < i := by
      rcases Nat.lt_or_ge j i with h | h
      · exact h
      · exact absurd (Nat.le_antisymm h hge) hij
    refine ⟨g j, hgS j, ?_⟩
    have := hchain j (i - j - 1)
    rw [show j + (i - j - 1) + 1 = i by omega] at this
    rw [hgij] at this
    exact this

theorem flatten_map_singleton (l : List PlanTask) :
    (l.map (fun t => [t])).flatten = l := by
  induction l with
  | nil => rfl
  | cons t rest ih => simp [ih]

theorem flatten_newBatchesOf (ready : List PlanTask) :
    (newBatchesOf ready).flatten =
      ready.filter (fun t => t.can_run_parallel) ++
        ready.filter (fun t => !t.can_run_parallel) := by
  unfold newBatchesOf
  split
  · rename_i hp
    rw [List.isEmpty_iff] at hp
    simp [hp, flatten_map_singleton]
  · simp [flatten_map_singleton]

theorem ready_filter_eq (remaining : List PlanTask) (done : List String)
    (hnd : (remaining.map (fun t => t.id)).Nodup) :
    remaining.filter
        (fun t => ((readyOf remaining done).map (fun t => t.id)).contains t.id) =
      readyOf remaining done := by
  conv_rhs => rw [readyOf]
  apply List.filter_congr
  intro t ht
  by_cases hp : (t.depends_on.all fun dep => done.contains dep) = true
  · rw [hp]
    have htr : t ∈ readyOf remaining done := by
      unfold readyOf
      exact List.mem_filter.mpr ⟨ht, hp⟩
    simpa using List.mem_map_of_mem (fun t => t.id) htr
  · rw [show (t.depends_on.all fun dep => done.contains dep) = false from
      Bool.not_eq_true _ ▸ hp]
    rw [Bool.eq_false_iff]
    intro hc
    rw [show ∀ (l : List String) (a : String), l.contains a = true ↔ a ∈ l from
      fun l a => by simp] at hc
    obtain ⟨u, hu, hue⟩ := List.mem_map.mp hc
    have hur : u ∈ remaining := (List.mem_filter.mp hu).1
    have : u = t := List.inj_on_of_nodup_map hnd hur ht hue
    rw [this] at hu
    exact hp (List.mem_filter.mp hu).2

theorem perm_ready_step (remaining : List PlanTask) (done : List String)
    (hnd : (remaining.map (fun t => t.id)).Nodup) :
    (readyOf remaining done ++
        remaining.filter
          (fun t => !((readyOf remaining done).map (fun t => t.id)).contains t.id)).Perm
      remaining := by
  have h := List.filter_append_perm
    (fun t => ((readyOf remaining done).map (fun t => t.id)).contains t.id) remaining
  rw [ready_filter_eq remaining done hnd] at h
  exact h

theorem nodup_filter_map_id (remaining : List PlanTask) (p : PlanTask → Bool)
    (hnd : (remaining.map (fun t => t.id)).Nodup) :
    ((remaining.filter p).map (fun t => t.id)).Nodup :=
  List.Nodup.sublist (List.Sublist.map _ (List.filter_sublist remaining)) hnd

theorem remaining_step_length (remaining : List PlanTask) (done : List String)
    (hready : readyOf remaining done ≠ []) :
    (remaining.filter
        (fun t => !((readyOf remaining done).map (fun t => t.id)).contains t.id)).length <
      remaining.length := by
  rw [List.length_filter_lt_length_iff_exists]
  obtain ⟨t, ht⟩ := List.exists_mem_of_ne_nil _ hready
  refine ⟨t, (List.mem_filter.mp ht).1, ?_⟩
  have hmem := List.mem_map_of_mem (fun t => t.id) ht
  simpa using hmem

/-- Every dependency of every task of every batch is either already in
`done` or scheduled in a strictly earlier batch of the list. -/
def batchesRespectDeps (done : List String) (bs : List (List PlanTask)) : Prop :=
  ∀ pre b post, bs = pre ++ b :: post → ∀ t ∈ b, ∀ d ∈ t.depends_on,
    d ∈ done ∨ ∃ b' ∈ pre, d ∈ b'.map (fun t => t.id)

theorem batchesRespectDeps_nil (done : List String) : batchesRespectDeps done [] := by
  intro pre b post h
  exact absurd h (by simp)

theorem mem_newBatchesOf_subset (ready b : List PlanTask) (hb : b ∈ newBatchesOf ready) :
    ∀ t ∈ b, t ∈ ready := by
  unfold newBatchesOf at hb
  rcases List.mem_append.mp hb with hb | hb
  · split at hb
    · exact absurd hb (by simp)
    · rw [List.mem_singleton] at hb
      subst hb
      intro t ht
      exact (List.mem_filter.mp ht).1
  · obtain ⟨u, hu, hue⟩ := List.mem_map.mp hb
    subst hue
    intro t ht
    rw [List.mem_singleton] at ht
    subst ht
    exact (List.mem_filter.mp hu).1

theorem id_mem_newBatchesOf (ready : List PlanTask) (u : PlanTask) (hu : u ∈ ready) :
    ∃ b ∈ newBatchesOf ready, u.id ∈ b.map (fun t => t.id) := by
  by_cases hcp : u.can_run_parallel = true
  · have hup : u ∈ ready.filter (fun t => t.can_run_parallel) :=
      List.mem_filter.mpr ⟨hu, hcp⟩
    refine ⟨ready.filter (fun t => t.can_run_parallel), ?_, ?_⟩
    · unfold newBatchesOf
      apply List.mem_append_left
      rw [if_neg ?hne]
      case hne =>
        rw [List.isEmpty_iff]
        intro hnil
        rw [hnil] at hup
        exact absurd hup (by simp)
      simp
    · exact List.mem_map_of_mem _ hup
  · have hus : u ∈ ready.filter (fun t => !t.can_run_parallel) :=
      List.mem_filter.mpr ⟨hu, by simpa using hcp⟩
    refine ⟨[u], ?_, by simp⟩
    unfold newBatchesOf
    apply List.mem_append_right
    exact List.mem_map.mpr ⟨u, hus, rfl⟩

theorem batchesRespectDeps_step (done : List String) (ready : List PlanTask)
    (bs'' : List (List PlanTask))
    (hready : ∀ t ∈ ready, ∀ d ∈ t.depends_on, d ∈ done)
    (hbs : batchesRespectDeps (done ++ ready.map (fun t => t.id)) bs'') :
    batchesRespectDeps done (newBatchesOf ready ++ bs'') := by
  intro pre b post heq t ht d hd
  have hfromrids : d ∈ ready.map (fun t => t.id) →
      ∃ b0 ∈ newBatchesOf ready, d ∈ b0.map (fun t => t.id) := by
    intro hdm
    obtain ⟨u, hu, hue⟩ := List.mem_map.mp hdm
    subst hue
    exact id_mem_newBatchesOf ready u hu
  rcases List.append_eq_append_iff.mp heq with ⟨a', hpre, hbs''⟩ | ⟨c', hnb, hcp⟩
  · rcases hbs a' b post hbs'' t ht d hd with hdone | ⟨b', hb', hdb'⟩
    · rcases List.mem_append.mp hdone with hdone | hrids
      · exact Or.inl hdone
      · obtain ⟨b0, hb0, hdb0⟩ := hfromrids hrids
        exact Or.inr ⟨b0, by rw [hpre]; exact List.mem_append_left _ hb0, hdb0⟩
    · exact Or.inr ⟨b', by rw [hpre]; exact List.mem_append_right _ hb', hdb'⟩
  · cases c' with
    | nil =>
      rw [List.append_nil] at hnb
      rw [List.nil_append] at hcp
      rcases hbs [] b post hcp.symm t ht d hd with hdone | ⟨b', hb', _⟩
      · rcases List.mem_append.mp hdone with hdone | hrids
        · exact Or.inl hdone
        · obtain ⟨b0, hb0, hdb0⟩ := hfromrids hrids
          exact Or.inr ⟨b0, by rw [← hnb]; exact hb0, hdb0⟩
      · exact absurd hb' (by simp)
    | cons b2 c'' =>
      have hb2 : b = b2 := by
        injection hcp
      subst hb2
      have hbmem : b ∈ newBatchesOf ready := by
        rw [hnb]
        exact List.mem_append_right _ (by simp)
      exact Or.inl (hready t (mem_newBatchesOf_subset ready b hbmem t ht) d hd)

/-- Main loop invariant: for unique task ids, `topoLoop` either succeeds
with batches that are a permutation of the remaining tasks and respect the
dependency order, or fails with the cycle error. -/
theorem topoLoop_spec :
    ∀ (n : Nat) (remaining : List PlanTask) (done : List String)
      (batches : List (List PlanTask)),
    remaining.length ≤ n → (remaining.map fun t => t.id).Nodup →
    (∃ bs', topoLoop remaining done batches = .ok (batches ++ bs') ∧
        bs'.flatten.Perm remaining ∧ batchesRespectDeps done bs') ∨
      topoLoop remaining done batches = .error "Cycle detected in plan dependencies" := by
  intro n
  induction n with
  | zero =>
    intro remaining done batches hlen hnd
    have hre : remaining = [] := List.eq_nil_of_length_eq_zero (Nat.le_zero.mp hlen)
    subst hre
    exact Or.inl ⟨[], by simp [topoLoop_nil], by simp, batchesRespectDeps_nil done⟩
  | succ n ih =>
    intro remaining done batches hlen hnd
    by_cases hre : remaining = []
    · subst hre
      exact Or.inl ⟨[], by simp [topoLoop_nil], by simp, batchesRespectDeps_nil done⟩
    · by_cases hready : readyOf remaining done = []
      · exact Or.inr (topoLoop_cycle _ _ _ hre hready)
      · have hlen' :
            (remaining.filter
              (fun t => !((readyOf remaining done).map (fun t => t.id)).contains t.id)).length ≤ n := by
          have := remaining_step_length remaining done hready
          omega
        have hnd' :
            ((remaining.filter
              (fun t => !((readyOf remaining done).map (fun t => t.id)).contains t.id)).map
                (fun t => t.id)).Nodup :=
          nodup_filter_map_id remaining _ hnd
        rcases ih _ (done ++ (readyOf remaining done).map (fun t => t.id))
            (batches ++ newBatchesOf (readyOf remaining done)) hlen' hnd' with
          ⟨bs'', hok, hperm, hresp⟩ | herr
        · left
          refine ⟨newBatchesOf (readyOf remaining done) ++ bs'', ?_, ?_, ?_⟩
          · rw [topoLoop_step _ _ _ hre hready, hok, List.append_assoc]
          · rw [List.flatten_append, flatten_newBatchesOf]
            have h1 : ((readyOf remaining done).filter (fun t => t.can_run_parallel) ++
                (readyOf remaining done).filter (fun t => !t.can_run_parallel)).Perm
                (readyOf remaining done) :=
              List.filter_append_perm _ _
            exact List.Perm.trans (List.Perm.append h1 hperm)
              (perm_ready_step remaining done hnd)
          · apply batchesRespectDeps_step done (readyOf remaining done) bs'' ?_ hresp
            intro t ht d hd
            have hp := (List.mem_filter.mp ht).2
            have := List.all_eq_true.mp hp d hd
            simpa using this
        · right
          rw [topoLoop_step _ _ _ hre hready]
          exact herr

/-- Under the full validity invariants (all tasks drawn from an acyclic
plan, dependencies closed under `done` and the remaining ids), the loop
never reports a cycle. -/
theorem topoLoop_no_cycle :
    ∀ (n : Nat) (remaining : List PlanTask) (done : List String)
      (batches : List (List PlanTask)) (tasks : List PlanTask),
    remaining.length ≤ n →
    (∀ t ∈ remaining, t ∈ tasks) →
    (∀ t ∈ remaining, ∀ d ∈ t.depends_on, d ∈ done ∨ ∃ u ∈ remaining, u.id = d) →
    Acyclic tasks →
    ∀ e, topoLoop remaining done batches ≠ .error e := by
  intro n
  induction n with
  | zero =>
    intro remaining done batches tasks hlen _ _ _ e
    have hre : remaining = [] := List.eq_nil_of_length_eq_zero (Nat.le_zero.mp hlen)
    subst hre
    rw [topoLoop_nil]
    simp
  | succ n ih =>
    intro remaining done batches tasks hlen hsub hclosed hacyc e
    by_cases hre : remaining = []
    · subst hre
      rw [topoLoop_nil]
      simp
    · by_cases hready : readyOf remaining done = []
      · exfalso
        have hstep : ∀ a ∈ remaining, ∃ b, b ∈ remaining ∧
            (a ∈ remaining ∧ b ∈ remaining ∧ b.id ∈ a.depends_on) := by
          intro a ha
          have hnotready : (a.depends_on.all fun dep => done.contains dep) = false := by
            by_cases hall : (a.depends_on.all fun dep => done.contains dep) = true
            · exfalso
              have : a ∈ readyOf remaining done := List.mem_filter.mpr ⟨ha, hall⟩
              rw [hready] at this
              exact absurd this (by simp)
            · exact Bool.not_eq_true _ ▸ hall
          obtain ⟨d, hd, hdnot⟩ := by
            have := List.all_eq_false.mp hnotready
            simpa using this
          rcases hclosed a ha d hd with hdone | ⟨u, hu, hue⟩
          · exact absurd hdone hdnot
          · exact ⟨u, hu, ha, hu, hue ▸ hd⟩
        obtain ⟨a, ha, hcyc⟩ := exists_transGen_self remaining
          (fun a b => a ∈ remaining ∧ b ∈ remaining ∧ b.id ∈ a.depends_on) hre hstep
        have hmono : Relation.TransGen (taskDepRel tasks) a a := by
          apply Relation.TransGen.mono ?_ hcyc
          intro x y ⟨hx, hy, hxy⟩
          exact ⟨hsub x hx, hsub y hy, hxy⟩
        exact hacyc a (hsub a ha) hmono
      · rw [topoLoop_step _ _ _ hre hready]
        apply ih _ _ _ tasks ?_ ?_ ?_ hacyc
        · have := remaining_step_length remaining done hready
          omega
        · intro t ht
          exact hsub t (List.mem_filter.mp ht).1
        · intro t ht d hd
          rcases hclosed t (List.mem_filter.mp ht).1 d hd with hdone | ⟨u, hu, hue⟩
          · exact Or.inl (List.mem_append_left _ hdone)
          · by_cases hkeep :
              (!((readyOf remaining done).map (fun t => t.id)).contains u.id) = true
            · exact Or.inr ⟨u, List.mem_filter.mpr ⟨hu, hkeep⟩, hue⟩
            · left
              apply List.mem_append_right
              rw [← hue]
              have hX : ((readyOf remaining done).map (fun t => t.id)).contains u.id = true := by
                simpa using hkeep
              simpa using hX

theorem dictOfTasks_go (rest : List PlanTask) :
    ∀ acc : List PlanTask,
    ((acc ++ rest).map (fun t => t.id)).Nodup →
    rest.foldl
      (fun acc t =>
        if acc.any (fun u => u.id == t.id)
        then acc.map (fun u => if u.id == t.id then t else u)
        else acc ++ [t])
      acc = acc ++ rest := by
  induction rest with
  | nil => intro acc _; simp
  | cons t rest' ih =>
    intro acc h
    rw [List.foldl_cons]
    have hnot : acc.any (fun u => u.id == t.id) = false := by
      rw [List.any_eq_false]
      intro u hu hue
      rw [List.map_append, List.nodup_append] at h
      exact h.2.2 (List.mem_map_of_mem _ hu)
        (by
          rw [show u.id = t.id by simpa using hue]
          simp)
    rw [if_neg (by simp [hnot])]
    have := ih (acc ++ [t]) (by simpa using h)
    rw [this]
    simp

/-- For pairwise-distinct ids — the case the scheduler is actually called in
after validation — the id-keyed dict keeps every task, in order. -/
theorem dictOfTasks_eq_self (tasks : List PlanTask)
    (h : (tasks.map (fun t => t.id)).Nodup) : dictOfTasks tasks = tasks := by
  have := dictOfTasks_go tasks [] (by simpa using h)
  simpa [dictOfTasks] using this

/-- C2: for every valid plan (unique ids, dependencies present, no
dependency cycle), the scheduler succeeds; the concatenation of its batches
is a permutation of the tasks, containing each task id exactly once, and
every dependency id of every task occurs in a strictly earlier batch. -/
theorem C2_scheduler_correct (tasks : List PlanTask)
    (huniq : (tasks.map fun t => t.id).Nodup)
    (hdeps : ∀ t ∈ tasks, ∀ d ∈ t.depends_on, d ∈ tasks.map (fun t => t.id))
    (hacyc : Acyclic tasks) :
    ∃ bs, topological_batches tasks = .ok bs ∧
      bs.flatten.Perm tasks ∧
      (∀ i ∈ tasks.map (fun t => t.id), List.count i (bs.flatten.map (fun t => t.id)) = 1) ∧
      (∀ pre b post, bs = pre ++ b :: post → ∀ t ∈ b, ∀ d ∈ t.depends_on,
        ∃ b' ∈ pre, d ∈ b'.map (fun t => t.id)) := by
  unfold topological_batches
  rw [dictOfTasks_eq_self tasks huniq]
  rcases topoLoop_spec tasks.length tasks [] [] (le_refl _) huniq with
    ⟨bs', hok, hperm, hresp⟩ | herr
  · refine ⟨bs', by simpa using hok, hperm, ?_, ?_⟩
    · intro i hi
      have hpm : (bs'.flatten.map (fun t => t.id)).Perm (tasks.map (fun t => t.id)) :=
        hperm.map _
      rw [hpm.count_eq]
      exact List.count_eq_one_of_mem huniq hi
    · intro pre b post heq t ht d hd'
      rcases hresp pre b post heq t ht d hd' with hdone | hearlier
      · exact absurd hdone (by simp)
      · exact hearlier
  · exfalso
    refine topoLoop_no_cycle tasks.length tasks [] [] tasks (le_refl _)
      (fun t ht => ht) ?_ hacyc _ herr
    intro t ht d hd'
    right
    obtain ⟨u, hu, hue⟩ := List.mem_map.mp (hdeps t ht d hd')
    exact ⟨u, hu, hue⟩

/-- Witness for C2 at the concrete two-task independent plan. -/
theorem C2_scheduler_correct_witness :
    ∃ bs, topological_batches [sampleTaskA, sampleTaskB] = .ok bs ∧
      bs.flatten.Perm [sampleTaskA, sampleTaskB] ∧
      (∀ i ∈ [sampleTaskA, sampleTaskB].map (fun t => t.id),
        List.count i (bs.flatten.map (fun t => t.id)) = 1) ∧
      (∀ pre b post, bs = pre ++ b :: post → ∀ t ∈ b, ∀ d ∈ t.depends_on,
        ∃ b' ∈ pre, d ∈ b'.map (fun t => t.id)) :=
  C2_scheduler_correct [sampleTaskA, sampleTaskB] (by decide) (by decide)
    (by
      intro t ht hcyc
      obtain ⟨b, ⟨hta, hbb, hbid⟩, _⟩ := Relation.TransGen.head'_iff.mp hcyc
      rcases List.mem_cons.mp hta with h1 | h1
      · rw [h1] at hbid
        exact absurd hbid (by simp [sampleTaskA])
      · rw [List.mem_singleton.mp h1] at hbid
        exact absurd hbid (by simp [sampleTaskB]))

/-- C3 (amended): for every task list with pairwise-distinct ids, the
scheduler terminates — either returning batches whose concatenation is a
permutation of the tasks (no task is dropped), or raising the cycle-detected
error. -/
theorem C3_terminates_or_cycle (tasks : List PlanTask)
    (huniq : (tasks.map fun t => t.id).Nodup) :
    (∃ bs, topological_batches tasks = .ok bs ∧ bs.flatten.Perm tasks) ∨
      topological_batches tasks = .error "Cycle detected in plan dependencies" := by
  unfold topological_batches
  rw [dictOfTasks_eq_self tasks huniq]
  rcases topoLoop_spec tasks.length tasks [] [] (le_refl _) huniq with
    ⟨bs', hok, hperm, _⟩ | herr
  · exact Or.inl ⟨bs', by simpa using hok, hperm⟩
  · exact Or.inr herr

/-- The cyclic pair of tasks: `"a"` depends on `"b"` and `"b"` on `"a"`. -/
def cycTask1 : PlanTask := ⟨"a", Worker.static, "one", ["b"], false, []⟩

/-- The second task of the cyclic pair. -/
def cycTask2 : PlanTask := ⟨"b", Worker.static, "two", ["a"], false, []⟩

/-- Witness for the amended C3 at the concrete cyclic two-task plan. -/
theorem C3_terminates_or_cycle_witness :
    (∃ bs, topological_batches [cycTask1, cycTask2] = .ok bs ∧
        bs.flatten.Perm [cycTask1, cycTask2]) ∨
      topological_batches [cycTask1, cycTask2] =
        .error "Cycle detected in plan dependencies" :=
  C3_terminates_or_cycle [cycTask1, cycTask2] (by decide)

/-- The pair of distinct tasks sharing the id `"a"`. -/
def dupTask1 : PlanTask := ⟨"a", Worker.static, "one", [], false, []⟩

/-- The second task with the duplicated id `"a"`. -/
def dupTask2 : PlanTask := ⟨"a", Worker.static, "two", [], false, []⟩

/-- C3 counterexample: on a task list with two distinct tasks sharing one
id, the scheduler silently drops the first — its id-keyed dict keeps only
the last task per id — so the returned batches do not cover all tasks and
no error is raised. -/
theorem C3_counterexample :
    topological_batches [dupTask1, dupTask2] = .ok [[dupTask2]] ∧
      dupTask1 ∉ ([[dupTask2]] : List (List PlanTask)).flatten := by
  constructor
  · unfold topological_batches
    rw [show dictOfTasks [dupTask1, dupTask2] = [dupTask2] from rfl]
    rw [topoLoop]
    simp [dupTask2]
    rw [topoLoop]
    simp
  · decide

/-- C7: round trip of TaskOutputRecords — every record appended while
executing a batch is contained, unmodified, in the filtered `task_outputs`
of the Verifier's input for that batch (its task id being among the
just-executed ids); `run_reporter` leaves the shared state untouched, and
every record appended during a whole successful run is contained,
unmodified, in the `task_outputs` of the Reporter's input at end of run. -/
theorem C7_round_trip :
    (∀ (o : Oracles) (b : List PlanTask) (st : AppState) (acc ids : List String)
       (st' : AppState) (u : String) (plan : ExecutionPlan),
       run_batch_tasks o b st acc = (.ok ids, st') →
       ∃ new, st'.shared_state.task_outputs = st.shared_state.task_outputs ++ new ∧
         ∀ p ∈ new, p ∈ (verifier_input u plan st' ids).task_outputs) ∧
    (∀ (o : Oracles) (u : String) (st : AppState),
       ((run_reporter o u st).2).shared_state = st.shared_state) ∧
    (∀ (o : Oracles) (u : String) (st : AppState) (ans : String),
       (run_multiagent_orchestration o u st).1 = .ok ans →
       ∃ new,
         (run_multiagent_orchestration o u st).2.shared_state.task_outputs =
             st.shared_state.task_outputs ++ new ∧
           ∀ p ∈ new,
             p ∈ (reporter_input u (run_multiagent_orchestration o u st).2).task_outputs) := by
  refine ⟨?_, run_reporter_shared, ?_⟩
  · intro o b st acc ids st' u plan h
    obtain ⟨new, ho, hc, hids⟩ := run_batch_tasks_ok o b st acc ids st' h
    refine ⟨new, ho, ?_⟩
    intro p hp
    unfold verifier_input
    dsimp only
    apply List.mem_filter.mpr
    refine ⟨by rw [ho]; exact List.mem_append_right _ hp, ?_⟩
    have hpid : p.task_id ∈ ids := by
      rw [hids]
      exact List.mem_append_right _ (List.mem_map_of_mem _ hp)
    simpa using hpid
  · intro o u st ans _h
    obtain ⟨new, ho, hc⟩ := run_multiagent_orchestration_extends o u st
    refine ⟨new, ho, ?_⟩
    intro p hp
    unfold reporter_input
    dsimp only
    rw [ho]
    exact List.mem_append_right _ hp

/-- C6: one-pass retry discipline — (i) for a one-batch run whose tasks all
succeed and whose verifier call returns a verdict, the whole batch loop
reduces to `run_retries` on the verdict's retry tasks applied to the
post-verification state (the Verifier is invoked exactly once, before any
retry, and nothing is verified or retried afterwards); (ii) the verifier
input holds exactly the pre-retry records filtered by the just-ran ids, so
no retry output is ever verified; (iii) `run_retries` dispatches each retry
task exactly once, appending exactly one TaskOutputRecord per retry with
that retry's id, worker and objective, and leaves the verifier history
untouched. -/
theorem C6_one_pass_retries :
    (∀ (o : Oracles) (u : String) (plan : ExecutionPlan) (b : List PlanTask)
       (st st1 : AppState) (ids : List String) (v : VerificationVerdict)
       (h1 : List ModelMessage),
       run_batch_tasks o b st [] = (.ok ids, st1) →
       o.verifier (verifier_input u plan st1 ids) (get_role_history st1 "verifier") =
         .ok (v, h1) →
       run_batches o u plan [b] st =
         run_retries o v.retry_tasks
           (append_tool_log_delta o.tool_log_of (set_role_history st1 "verifier" h1)
             "verifier" (get_role_history st1 "verifier") h1)) ∧
    (∀ (u : String) (plan : ExecutionPlan) (st : AppState) (ids : List String),
       (verifier_input u plan st ids).task_outputs =
         st.shared_state.task_outputs.filter (fun t => ids.contains t.task_id)) ∧
    (∀ (o : Oracles) (rs : List RetryTask) (st st' : AppState),
       run_retries o rs st = (.ok (), st') →
       ∃ pks, st'.shared_state.task_outputs = st.shared_state.task_outputs ++ pks ∧
         pks.map (fun p => p.task_id) = rs.map (fun r => r.task_id) ∧
         pks.map (fun p => p.worker) = rs.map (fun r => r.worker) ∧
         pks.map (fun p => p.objective) = rs.map (fun r => r.objective) ∧
         (∀ p ∈ pks, p.status = "ok") ∧
         get_role_history st' "verifier" = get_role_history st "verifier") := by
  refine ⟨?_, fun u plan st ids => rfl, ?_⟩
  · intro o u plan b st st1 ids v h1 hbatch hver
    have hv : run_verifier o u plan st1 ids =
        (.ok v, append_tool_log_delta o.tool_log_of (set_role_history st1 "verifier" h1)
          "verifier" (get_role_history st1 "verifier") h1) := by
      unfold run_verifier
      dsimp only
      rw [hver]
    unfold run_batches
    rw [hbatch]
    dsimp only
    rw [hv]
    dsimp only
    rcases hr : run_retries o v.retry_tasks
        (append_tool_log_delta o.tool_log_of (set_role_history st1 "verifier" h1)
          "verifier" (get_role_history st1 "verifier") h1) with ⟨rr, st3⟩
    cases rr with
    | error e => rfl
    | ok u' =>
      cases u'
      dsimp only
      rw [run_batches]
  · intro o rs st st' h
    obtain ⟨pks, ho, _, hid, hwk, hobj, hst, hver⟩ := run_retries_ok o rs st st' h
    exact ⟨pks, ho, hid, hwk, hobj, hst, hver⟩

/-- The single retry task returned by the witness verifier. -/
def retrySample : RetryTask := ⟨"t1", Worker.static, "redo the string extraction"⟩

/-- Oracle bundle whose verifier asks for exactly one retry. -/
def oRetry : Oracles :=
  { planner := fun _ _ => .ok (samplePlan, [])
    static_worker := fun inp _ => .ok ("out " ++ inp.task.id, [])
    dynamic_worker := fun _ _ => .error "no dynamic backend"
    verifier := fun _ _ => .ok (⟨false, [], [retrySample]⟩, ["verifier-msg"])
    reporter := fun _ _ => .ok ("report", [])
    tool_log_of := fun _ => ""
    static_ids := ["stringsmcp"]
    dynamic_ids := [] }

/-- Witness for C6: one concrete retry task is dispatched exactly once from
the empty state, appending exactly its own record. -/
theorem C6_one_pass_retries_witness :
    ∃ pks, (run_retries oRetry [retrySample] emptyAppState).2.shared_state.task_outputs =
        emptyAppState.shared_state.task_outputs ++ pks ∧
      pks.map (fun p => p.task_id) = [retrySample].map (fun r => r.task_id) ∧
      pks.map (fun p => p.worker) = [retrySample].map (fun r => r.worker) ∧
      pks.map (fun p => p.objective) = [retrySample].map (fun r => r.objective) ∧
      (∀ p ∈ pks, p.status = "ok") ∧
      get_role_history (run_retries oRetry [retrySample] emptyAppState).2 "verifier" =
        get_role_history emptyAppState "verifier" :=
  C6_one_pass_retries.2.2 oRetry [retrySample] emptyAppState
    (run_retries oRetry [retrySample] emptyAppState).2 rfl

/-- Witness for C7: a concrete one-task batch appends one record that the
verifier input for that batch contains, and a concrete successful run's
appended records all appear in the reporter input. -/
theorem C7_round_trip_witness :
    (∃ new, (run_batch_tasks oSample [sampleTaskA] emptyAppState []).2.shared_state.task_outputs =
        emptyAppState.shared_state.task_outputs ++ new ∧
      ∀ p ∈ new, p ∈ (verifier_input "go" samplePlan
        (run_batch_tasks oSample [sampleTaskA] emptyAppState []).2 ["t1"]).task_outputs) ∧
    (∃ new, (run_multiagent_orchestration oSample "go" emptyAppState).2.shared_state.task_outputs =
        emptyAppState.shared_state.task_outputs ++ new ∧
      ∀ p ∈ new, p ∈ (reporter_input "go"
        (run_multiagent_orchestration oSample "go" emptyAppState).2).task_outputs) :=
  ⟨C7_round_trip.1 oSample [sampleTaskA] emptyAppState [] ["t1"]
      (run_batch_tasks oSample [sampleTaskA] emptyAppState []).2 "go" samplePlan rfl,
   C7_round_trip.2.2 oSample "go" emptyAppState "final report"
      (by
        have hb : topological_batches samplePlan.tasks = .ok [[sampleTaskA, sampleTaskB]] := by
          unfold topological_batches
          rw [show dictOfTasks samplePlan.tasks = [sampleTaskA, sampleTaskB] from rfl]
          rw [topoLoop]
          simp [sampleTaskA, sampleTaskB]
          rw [topoLoop]
          simp
        unfold run_multiagent_orchestration
        rw [show run_planner oSample "go" emptyAppState =
            (.ok samplePlan, set_role_history emptyAppState "planner" ["plan-msg"]) from rfl]
        dsimp only
        rw [hb]
        rfl)⟩

end HubDev
